import Mathlib

/-!
Verification development for the hash-box snapshot store
(`src/core/store.rs` and `src/model.rs`).

We shallowly embed the core data model (`Node`), the in-memory registry
(a `HashSet<Node>` whose equality and hash are keyed by `name` alone),
and the `Store` operations `add`, `build`, `links`, `load`, `delete`,
`get`/`recover` and `clear`.

Modelling conventions:
  * Machine state relevant to the claims is `Store`: the in-memory
    registry `data` (the Rust `HashSet<Node>`, modelled as a list with
    name-keyed set operations) and the flat object-store directory
    `objects` (the list of object file names under `objects/`; the code
    only ever creates files directly in that directory, so the store is
    flat).
  * A file-system subtree to be captured is an `FsEntry`.  A walkdir
    entry whose directory-listing read fails (yielded as `Err` by the
    iterator and dropped by `.filter_map(|f| f.ok())`) is the
    constructor `FsEntry.unreadable`; a symlink whose `read_link` fails
    carries `none` as its target.
  * `std::fs::hard_link(src, dst)` fails when `dst` already exists
    (EEXIST) or `src` is missing (ENOENT); `fs::create_dir` and
    `symlink` fail when the destination path exists.  These are the
    failure modes the embedding tracks; other environmental failures of
    `remove_file` during the sweep are modelled by an oracle parameter.
  * Fallible Rust functions returning `anyhow::Result<()>` while
    mutating `self` become functions returning the post-state paired
    with `Option Err` (the state on the error path is the partially
    mutated one, as in the source).
-/

/-- Error values surfaced by store operations.  The Rust code uses
`anyhow` string errors; only the distinctions the claims need are kept. -/
inductive Err where
  | notExists   -- `get`: destination path does not exist
  | isFile      -- `get`: destination path is a regular file
  | notFound    -- `get`: no registry entry with the requested name
  | ioError     -- any underlying file-system failure
deriving Repr, DecidableEq

/-- The `Node` entity from the (missing) `core/node.rs`, nearly duplicated as
`model.rs`'s `Node { name, meta }` with
`Meta = FILE(String) | SYMLINK(PathBuf) | DIRECTORY(Vec<Node>)`.
The `name`/`meta` record is flattened into one constructor per `Meta`
variant; `directory` children are in walkdir's sorted listing order. -/
inductive Node where
  | file (name : String) (digest : String)
  | symlink (name : String) (target : String)
  | directory (name : String) (children : List Node)

/-- The `name` field of a `Node`. -/
def Node.name : Node → String
  | .file n _ => n
  | .symlink n _ => n
  | .directory n _ => n

/-- Rust `impl PartialEq for Node` (model.rs:36-41): equality is decided by
`name` alone, ignoring the `meta` variant. -/
def Node.beqByName (a b : Node) : Bool := a.name == b.name

instance : BEq Node := ⟨Node.beqByName⟩

/-- Rust `impl Hash for Node` (model.rs:45-50): only `self.name` is hashed. -/
def Node.hashByName (n : Node) : UInt64 := n.name.hash

mutual
/-- The digest-collecting depth-first traversal `dfs` inside
`Store::clear` (store.rs): `FILE` digests are recorded, `DIRECTORY`
children are recursed into, `SYMLINK` is ignored. -/
def Node.refs : Node → List String
  | .file _ d => [d]
  | .symlink _ _ => []
  | .directory _ cs => refsList cs

/-- The traversal `Node.refs` mapped over a child list, concatenated in order. -/
def refsList : List Node → List String
  | [] => []
  | c :: cs => Node.refs c ++ refsList cs
end

/-- Rust `HashSet<Node>::contains` specialised to a probe with the given
name: membership is name-keyed because `Eq`/`Hash` use `name` alone. -/
def containsName (data : List Node) (nm : String) : Bool :=
  data.any (fun m => m.name == nm)

/-- Rust `HashSet<Node>::insert`: a no-op when an equal (same-named) element
is already present, otherwise the element is added. -/
def insertNode (data : List Node) (n : Node) : List Node :=
  if containsName data n.name then data else data ++ [n]

/-- Rust `HashSet<Node>::extend` (used by `load`): inserts each element in
turn, so an existing same-named element is kept and the incoming one is
dropped. -/
def extendNodes (data : List Node) : List Node → List Node
  | [] => data
  | t :: ts => extendNodes (insertNode data t) ts

/-- Rust `HashSet<Node>::remove(&Node::sample(name))` (used by `delete`):
removes the (at most one) stored element whose name matches. -/
def removeNode (data : List Node) (nm : String) : List Node :=
  data.eraseP (fun m => m.name == nm)

/-- Rust `HashSet<Node>::get(&Node::sample(name))` (used by `get`): returns
the stored element with the given name, if any. -/
def findByName (data : List Node) (nm : String) : Option Node :=
  data.find? (fun m => m.name == nm)

/-- The registry invariant enforced by name-keyed set semantics: at most
one root entry per name. -/
def distinctNames (data : List Node) : Prop :=
  data.Pairwise (fun a b => a.name ≠ b.name)

/-- One file-system entry as observed by `build`/`links`.
`unreadable` is a walkdir entry whose read failed (the iterator yields
`Err`); a `symlink` whose `read_link` fails has `target = none`.
`dir` children are listed in walkdir's `sort_by_file_name` order. -/
inductive FsEntry where
  | file (name : String) (digest : String)
  | symlink (name : String) (target : Option String)
  | dir (name : String) (entries : List FsEntry)
  | unreadable

/-- Base name of an entry ("" for an unreadable listing entry, whose
name never reaches the code). -/
def FsEntry.name : FsEntry → String
  | .file n _ => n
  | .symlink n _ => n
  | .dir n _ => n
  | .unreadable => ""

/-- Modelled from the spec: `Node::new` / `Node::try_from` of the
missing `core/node.rs`, mirroring the near-identical
`impl TryFrom<&Path> for Node` in model.rs:52-73: a symlink becomes
`SYMLINK(read_link(p)?)` (an unreadable link target is an error), a
directory becomes `DIRECTORY` with an empty child list, anything else
becomes `FILE(md5(p))`; reading an unlistable path fails. -/
def Node.new : FsEntry → Except Err Node
  | .file n d => .ok (.file n d)
  | .symlink n (some t) => .ok (.symlink n t)
  | .symlink _ none => .error .ioError
  | .dir n _ => .ok (.directory n [])
  | .unreadable => .error .ioError

/-- The store's machine state: the in-memory registry `data`
(`HashSet<Node>`) and the contents of the flat `objects/` directory
(`objects`, file names = digests). -/
structure Store where
  data : List Node
  objects : List String

mutual
/-- Rust `Store::build` (store.rs:154-179): `Node::new` for the root, then
for each walkdir entry at depth 1 (errors dropped by
`.filter_map(|f| f.ok())`, the root itself filtered out), recurse for
directories and `Node::new` otherwise, pushing into the root's child
vector when the root is a `DIRECTORY`.  For a non-directory root the
walk yields nothing, so `build` reduces to `Node::new`. -/
def Store.build : FsEntry → Except Err Node
  | .dir n entries =>
      match buildChildren entries with
      | .ok cs => .ok (.directory n cs)
      | .error e => .error e
  | e => Node.new e

/-- The body of `build`'s loop over one directory listing: unreadable
walkdir entries are skipped, a failing child construction aborts with
its error (`?`). -/
def buildChildren : List FsEntry → Except Err (List Node)
  | [] => .ok []
  | .unreadable :: rest => buildChildren rest
  | c :: rest =>
      match Store.build c with
      | .error e => .error e
      | .ok node =>
          match buildChildren rest with
          | .error e => .error e
          | .ok ns => .ok (node :: ns)
end

mutual
/-- Rust `Store::links` (store.rs:181-197): for a `FILE(d)` node,
`hard_link(src, objects/<d>)` — which fails with EEXIST when the object
file `d` already exists, and otherwise creates it; `SYMLINK` links
nothing; `DIRECTORY` recurses into the children in order, the first
failure aborting (`?`) with the objects linked so far kept on disk. -/
def Store.links (objects : List String) : Node → List String × Option Err
  | .file _ d =>
      if objects.contains d then (objects, some .ioError)
      else (objects ++ [d], none)
  | .symlink _ _ => (objects, none)
  | .directory _ cs => linksList objects cs

/-- The linker `links` folded over a child list, aborting at the first error. -/
def linksList (objects : List String) : List Node → List String × Option Err
  | [] => (objects, none)
  | c :: cs =>
      match Store.links objects c with
      | (objs, none) => linksList objs cs
      | (objs, some e) => (objs, some e)
end

/-- Rust `Store::add` (store.rs:143-152).  `path` is `none` when
`path.exists()` is false (the body is skipped and `Ok(())` returned).
Otherwise: `Node::try_from(path)?` probes the registry by name; when
absent, `build` then `links` then `HashSet::insert`, each `?` aborting
with the registry untouched. -/
def Store.add (st : Store) (path : Option FsEntry) : Store × Option Err :=
  match path with
  | none => (st, none)
  | some fs =>
      match Node.new fs with
      | .error e => (st, some e)
      | .ok probe =>
          if containsName st.data probe.name then (st, none)
          else
            match Store.build fs with
            | .error e => (st, some e)
            | .ok root =>
                match Store.links st.objects root with
                | (objs, some e) => ({ st with objects := objs }, some e)
                | (objs, none) => (⟨insertNode st.data root, objs⟩, none)

/-- The persisted registry file as `load` observes it. -/
inductive RegFile where
  | absent                      -- `config_path.exists()` is false
  | unreadable                  -- `read_to_string` fails
  | malformed                   -- `serde_json::from_str` fails
  | content (tmp : List Node)   -- parsed `HashSet<Node>`

/-- Rust `Store::load` (store.rs:126-134): nothing happens when the registry
file is absent; a read or parse failure aborts; otherwise the parsed
set is merged via `HashSet::extend`, existing entries winning on name
collision. -/
def Store.load (st : Store) (reg : RegFile) : Store × Option Err :=
  match reg with
  | .absent => (st, none)
  | .unreadable => (st, some .ioError)
  | .malformed => (st, some .ioError)
  | .content tmp => ({ st with data := extendNodes st.data tmp }, none)

/-- Rust `Store::delete` (store.rs:206-208): `self.data.remove(&Node::sample(name))`.
Pure registry metadata operation; the object store is untouched. -/
def Store.delete (st : Store) (nm : String) : Store :=
  { st with data := removeNode st.data nm }

/-- All digests referenced by the registry, i.e. the `tmp`
set of `Store::clear` after running `dfs` from every root entry. -/
def refsAll (data : List Node) : List String :=
  match data with
  | [] => []
  | n :: ns => Node.refs n ++ refsAll ns

/-- The sweep loop of `Store::clear`: for each unreferenced name, in
iteration order, `fs::remove_file(objects/<name>)?` — a failure
(modelled by the oracle `ok` returning false) aborts the loop with the
files removed so far gone and everything else kept. -/
def removeLoop (objs : List String) (res : List String) (ok : String → Bool) :
    List String × Option Err :=
  match res with
  | [] => (objs, none)
  | x :: xs =>
      if ok x then removeLoop (objs.erase x) xs ok
      else (objs, some .ioError)

/-- Rust `Store::clear` (store.rs:210-249): `names` is the set of file names
found under `objects/` (the store is flat, so the walk sees exactly the
object files); `tmp` is every digest reachable from the registry by
`dfs`; their difference is swept by `remove_file` with `?`. -/
def Store.clear (st : Store) (ok : String → Bool) : Store × Option Err :=
  let res := st.objects.filter (fun n => !(refsAll st.data).contains n)
  match removeLoop st.objects res ok with
  | (objs, e) => ({ st with objects := objs }, e)

mutual
/-- Rust `Store::recover` (store.rs:62-83), recreating `node` at the
destination path `p` (a component list relative to the `get`
destination).  `dst` is the set of paths already present there.
`FILE(d)`: `hard_link(objects/<d>, p)` fails when `p` exists (EEXIST)
or the object `d` is missing (ENOENT), else creates `p`.  `SYMLINK`:
`symlink(target, p)` fails when `p` exists.  `DIRECTORY`:
`fs::create_dir(p)` fails when `p` exists, else the children are
recovered in order under `p`, the first failure aborting (`?`). -/
def Store.recover (objects : List String) :
    Node → List String → List (List String) → List (List String) × Option Err
  | .file _ d, p, dst =>
      if dst.contains p then (dst, some .ioError)
      else if objects.contains d then (dst ++ [p], none)
      else (dst, some .ioError)
  | .symlink _ _, p, dst =>
      if dst.contains p then (dst, some .ioError)
      else (dst ++ [p], none)
  | .directory _ cs, p, dst =>
      if dst.contains p then (dst, some .ioError)
      else recoverList objects cs p (dst ++ [p])

/-- The recovery walk folded over a directory's children, each at
`p ++ [child.name]`, aborting at the first error. -/
def recoverList (objects : List String) :
    List Node → List String → List (List String) → List (List String) × Option Err
  | [], _, dst => (dst, none)
  | c :: cs, p, dst =>
      match Store.recover objects c (p ++ [c.name]) dst with
      | (dst1, none) => recoverList objects cs p dst1
      | (dst1, some e) => (dst1, some e)
end

/-- Rust `Store::get` (store.rs:43-59): bail when the destination does not
exist, bail when it is a regular file, bail when no registry entry has
the requested name; otherwise `recover(root, dst.join(root.name))`.
`dstExists`/`dstIsFile` describe the destination path itself and `dst`
its current contents. -/
def Store.get (st : Store) (nm : String) (dstExists dstIsFile : Bool)
    (dst : List (List String)) : List (List String) × Option Err :=
  if !dstExists then (dst, some .notExists)
  else if dstIsFile then (dst, some .isFile)
  else
    match findByName st.data nm with
    | none => (dst, some .notFound)
    | some root => Store.recover st.objects root [root.name] dst

/-! ### Helper lemmas -/

theorem contains_decide (l : List String) (a : String) : l.contains a = decide (a ∈ l) := by
  by_cases h : a ∈ l <;> simp [h, List.elem_iff]

theorem contains_cons_eq (a x : String) (l : List String) :
    (x :: l).contains a = (a == x || l.contains a) := by
  cases h : a == x
  · have hne : a ≠ x := by simpa using h
    simp [List.contains_cons, h, hne]
  · have heq : a = x := by simpa using h
    simp [List.contains_cons, h, heq]

theorem Node.new_name {fs : FsEntry} {n : Node} (h : Node.new fs = .ok n) : n.name = fs.name := by
  cases fs with
  | file nm d => simp [Node.new] at h; simp [← h, Node.name, FsEntry.name]
  | symlink nm t =>
      cases t with
      | none => simp [Node.new] at h
      | some t => simp [Node.new] at h; simp [← h, Node.name, FsEntry.name]
  | dir nm es => simp [Node.new] at h; simp [← h, Node.name, FsEntry.name]
  | unreadable => simp [Node.new] at h

theorem Store.build_name {fs : FsEntry} {n : Node} (h : Store.build fs = .ok n) :
    n.name = fs.name := by
  cases fs with
  | dir nm es =>
      unfold Store.build at h
      cases hb : buildChildren es with
      | ok cs => rw [hb] at h; simp at h; simp [← h, Node.name, FsEntry.name]
      | error e => rw [hb] at h; simp at h
  | file nm d => exact Node.new_name h
  | symlink nm t => exact Node.new_name h
  | unreadable => exact Node.new_name h

theorem containsName_append_one (data : List Node) (t : Node) (nm : String) :
    containsName (data ++ [t]) nm = (containsName data nm || (t.name == nm)) := by
  simp [containsName, List.any_append]

theorem containsName_eq_false_iff (data : List Node) (nm : String) :
    containsName data nm = false ↔ ∀ m ∈ data, m.name ≠ nm := by
  simp [containsName]

theorem distinct_insertNode (data : List Node) (n : Node) (h : distinctNames data) :
    distinctNames (insertNode data n) := by
  unfold insertNode
  cases hc : containsName data n.name with
  | true => simpa using h
  | false =>
      rw [if_neg (by simp)]
      unfold distinctNames at h ⊢
      rw [List.pairwise_append]
      refine ⟨h, by simp, ?_⟩
      intro a ha b hb
      have := (containsName_eq_false_iff data n.name).mp hc a ha
      simp at hb
      rw [hb]
      exact this

theorem distinct_extendNodes (data : List Node) (tmp : List Node) (h : distinctNames data) :
    distinctNames (extendNodes data tmp) := by
  induction tmp generalizing data with
  | nil => simpa [extendNodes] using h
  | cons t ts ih => exact ih (insertNode data t) (distinct_insertNode data t h)

theorem distinct_removeNode (data : List Node) (nm : String) (h : distinctNames data) :
    distinctNames (removeNode data nm) :=
  List.Pairwise.sublist (List.eraseP_sublist data) h

theorem mem_removeNode (data : List Node) (nm : String) (m : Node) (h : distinctNames data) :
    m ∈ removeNode data nm ↔ (m ∈ data ∧ m.name ≠ nm) := by
  induction data with
  | nil => simp [removeNode]
  | cons a rest ih =>
      have hrest : distinctNames rest := (List.pairwise_cons.mp h).2
      have hhead : ∀ b ∈ rest, a.name ≠ b.name := (List.pairwise_cons.mp h).1
      unfold removeNode at ih ⊢
      rw [List.eraseP_cons]
      cases hc : (a.name == nm) with
      | true =>
          have ha : a.name = nm := by simpa using hc
          simp only [cond_true]
          constructor
          · intro hm
            refine ⟨List.mem_cons_of_mem a hm, ?_⟩
            intro hnm
            exact (hhead m hm) (by rw [ha, hnm])
          · rintro ⟨hm, hnm⟩
            rcases List.mem_cons.mp hm with h1 | h1
            · exact absurd (h1 ▸ ha) hnm
            · exact h1
      | false =>
          have ha : a.name ≠ nm := by simpa using hc
          simp only [cond_false]
          rw [List.mem_cons, ih hrest, List.mem_cons]
          constructor
          · rintro (h1 | ⟨h1, h2⟩)
            · exact ⟨Or.inl h1, h1 ▸ ha⟩
            · exact ⟨Or.inr h1, h2⟩
          · rintro ⟨h1 | h1, h2⟩
            · exact Or.inl h1
            · exact Or.inr ⟨h1, h2⟩

theorem extendNodes_eq_append_filter (tmp : List Node) (data : List Node)
    (h : tmp.Pairwise (fun a b => a.name ≠ b.name)) :
    extendNodes data tmp = data ++ tmp.filter (fun n => !containsName data n.name) := by
  induction tmp generalizing data with
  | nil => simp [extendNodes]
  | cons t ts ih =>
      have hts : ts.Pairwise (fun a b => a.name ≠ b.name) := (List.pairwise_cons.mp h).2
      have hhd : ∀ b ∈ ts, t.name ≠ b.name := (List.pairwise_cons.mp h).1
      show extendNodes (insertNode data t) ts = _
      cases hc : containsName data t.name with
      | true =>
          have : insertNode data t = data := by simp [insertNode, hc]
          rw [this, ih data hts, List.filter_cons]
          simp [hc]
      | false =>
          have : insertNode data t = data ++ [t] := by simp [insertNode, hc]
          rw [this, ih (data ++ [t]) hts, List.filter_cons]
          have hfil : ts.filter (fun n => !containsName (data ++ [t]) n.name)
              = ts.filter (fun n => !containsName data n.name) := by
            apply List.filter_congr
            intro n hn
            rw [containsName_append_one]
            have : (t.name == n.name) = false := by
              simpa using (hhd n hn)
            simp [this]
          rw [hfil]
          simp [hc, List.append_assoc]

theorem removeLoop_all_ok (ok : String → Bool) :
    ∀ (res objs : List String), objs.Nodup → (∀ x ∈ res, ok x = true) →
      removeLoop objs res ok = (objs.filter (fun y => !res.contains y), none) := by
  intro res
  induction res with
  | nil =>
      intro objs _ _
      simp [removeLoop]
  | cons x xs ih =>
      intro objs hnd hok
      have hx : ok x = true := hok x (by simp)
      unfold removeLoop
      rw [if_pos hx]
      rw [ih (objs.erase x) (hnd.erase x) (fun y hy => hok y (by simp [hy]))]
      have : (objs.erase x).filter (fun y => !xs.contains y)
          = objs.filter (fun y => !((x :: xs).contains y)) := by
        rw [hnd.erase_eq_filter x, List.filter_filter]
        apply List.filter_congr
        intro y _
        rw [contains_cons_eq]
        have hbne : (y != x) = !(y == x) := rfl
        rw [hbne]
        cases h1 : y == x <;> cases h2 : xs.contains y <;> rfl
      rw [this]

theorem removeLoop_abort (ok : String → Bool) (x : String) (u2 : List String)
    (hx : ok x = false) :
    ∀ (u1 objs : List String), (∀ y ∈ u1, ok y = true) →
      (removeLoop objs (u1 ++ x :: u2) ok).2 = some .ioError ∧
      ∀ z ∈ objs, z ∉ u1 → z ∈ (removeLoop objs (u1 ++ x :: u2) ok).1 := by
  intro u1
  induction u1 with
  | nil =>
      intro objs _
      have hstep : removeLoop objs ([] ++ x :: u2) ok = (objs, some .ioError) := by
        simp [removeLoop, hx]
      rw [hstep]
      exact ⟨rfl, fun z hz _ => hz⟩
  | cons y u1' ih =>
      intro objs hu1
      have hy : ok y = true := hu1 y (by simp)
      have hstep : removeLoop objs ((y :: u1') ++ x :: u2) ok
          = removeLoop (objs.erase y) (u1' ++ x :: u2) ok := by
        rw [List.cons_append]
        simp [removeLoop, hy]
      rw [hstep]
      have hind := ih (objs.erase y) (fun z hz => hu1 z (by simp [hz]))
      refine ⟨hind.1, ?_⟩
      intro z hz hzm
      have hzy : z ≠ y := fun hzy => hzm (by simp [hzy])
      exact hind.2 z ((List.mem_erase_of_ne hzy).mpr hz) (fun hmem => hzm (by simp [hmem]))

/-! ### Claim theorems -/

/-- Claim C10: for every path that does not exist on the file system,
`add(path)` returns success (not an error) and leaves the in-memory
registry entry set unchanged: the whole body of `add` is guarded by
`path.exists()` and the function ends in `Ok(())`. -/
theorem add_missing_path_noop (st : Store) : Store.add st none = (st, none) := rfl

/-- Claim C7: `Node` equality holds iff the names are equal regardless
of kind, equal names give equal hashes, and consequently the name-keyed
set operations maintaining the registry preserve "at most one entry per
name" (insert, extend and remove keep the names pairwise distinct). -/
theorem node_identity_by_name :
    (∀ a b : Node, (a == b) = true ↔ a.name = b.name)
    ∧ (∀ a b : Node, a.name = b.name → Node.hashByName a = Node.hashByName b)
    ∧ (∀ (data : List Node) (n : Node), distinctNames data → distinctNames (insertNode data n))
    ∧ (∀ (data tmp : List Node), distinctNames data → distinctNames (extendNodes data tmp))
    ∧ (∀ (data : List Node) (nm : String), distinctNames data → distinctNames (removeNode data nm)) := by
  refine ⟨?_, ?_, distinct_insertNode, distinct_extendNodes, distinct_removeNode⟩
  · intro a b
    show (Node.beqByName a b) = true ↔ _
    simp [Node.beqByName]
  · intro a b h
    simp [Node.hashByName, h]

/-- Witness for C7 at concrete nodes: a file and a directory sharing
the name "a" compare equal, their hashes agree, and insertion keeps
names distinct. -/
theorem node_identity_by_name_witness :
    (Node.file "a" "d1" == Node.directory "a" []) = true
    ∧ Node.hashByName (Node.file "a" "d1") = Node.hashByName (Node.symlink "a" "t")
    ∧ distinctNames (insertNode [Node.file "a" "d1"] (Node.file "b" "d2")) :=
  ⟨(node_identity_by_name.1 (Node.file "a" "d1") (Node.directory "a" [])).mpr rfl,
   node_identity_by_name.2.1 (Node.file "a" "d1") (Node.symlink "a" "t") rfl,
   node_identity_by_name.2.2.1 [Node.file "a" "d1"] (Node.file "b" "d2")
     (by simp [distinctNames])⟩

/-- Claim C8: `delete(name)` removes exactly the root entry with that
name from the in-memory registry, leaves every other entry unchanged,
and performs no deletion of object-store content (the object list is
untouched). -/
theorem delete_frame (st : Store) (nm : String) (h : distinctNames st.data) :
    (Store.delete st nm).objects = st.objects
    ∧ ∀ m : Node, m ∈ (Store.delete st nm).data ↔ (m ∈ st.data ∧ m.name ≠ nm) :=
  ⟨rfl, fun m => mem_removeNode st.data nm m h⟩

/-- Witness for C8 at a concrete two-entry store: deleting "a" keeps
both objects and keeps exactly the entry named "b". -/
theorem delete_frame_witness :
    (Store.delete ⟨[Node.file "a" "d1", Node.file "b" "d2"], ["d1", "d2"]⟩ "a").objects
        = ["d1", "d2"]
    ∧ (Node.file "b" "d2" ∈
        (Store.delete ⟨[Node.file "a" "d1", Node.file "b" "d2"], ["d1", "d2"]⟩ "a").data
      ↔ (Node.file "b" "d2" ∈ ([Node.file "a" "d1", Node.file "b" "d2"] : List Node)
          ∧ (Node.file "b" "d2").name ≠ "a")) := by
  have h := delete_frame ⟨[Node.file "a" "d1", Node.file "b" "d2"], ["d1", "d2"]⟩ "a"
    (by simp [distinctNames, Node.name])
  exact ⟨h.1, h.2 (Node.file "b" "d2")⟩

/-- Counterexample to C2 as stated: a directory containing one entry
whose walkdir listing read fails ("unreadable") does NOT abort `build`
with an I/O error — `.filter_map(|f| f.ok())` silently drops the entry,
`build` succeeds with the child missing, and `add` inserts that
partial tree into the registry. -/
theorem build_unreadable_skip_counterexample :
    Store.build (FsEntry.dir "r" [FsEntry.unreadable]) = Except.ok (Node.directory "r" [])
    ∧ Store.add ⟨[], []⟩ (some (FsEntry.dir "r" [FsEntry.unreadable]))
        = (⟨[Node.directory "r" []], []⟩, none) :=
  ⟨rfl, rfl⟩

/-- Claim C2 (amended): entries whose directory-listing read fails are
silently skipped by `build`; it is a failure to construct a `Node` for
a listed entry (e.g. a symlink whose target cannot be read) that aborts
`build` with an I/O error, and when `build` fails, `add` on a
not-yet-registered path returns that error with the registry
unchanged (no partially built tree is inserted). -/
theorem build_error_aborts_add (st : Store) (fs : FsEntry) (e : Err)
    (h1 : containsName st.data fs.name = false)
    (h2 : Store.build fs = Except.error e) :
    Store.add st (some fs) = (st, some e) := by
  cases fs with
  | file n d => simp [Store.build, Node.new] at h2
  | symlink n t =>
      cases t with
      | some t => simp [Store.build, Node.new] at h2
      | none =>
          have he : Err.ioError = e := by simpa [Store.build, Node.new] using h2
          simp [Store.add, Node.new, ← he]
  | unreadable =>
      have he : Err.ioError = e := by simpa [Store.build, Node.new] using h2
      simp [Store.add, Node.new, ← he]
  | dir n es =>
      have hb : buildChildren es = Except.error e := by
        unfold Store.build at h2
        cases hbc : buildChildren es with
        | ok cs => rw [hbc] at h2; simp at h2
        | error e2 => rw [hbc] at h2; simp at h2; rw [h2]
      have h1n : containsName st.data n = false := h1
      simp [Store.add, Node.new, Node.name, Store.build, hb, h1n]

/-- Witness for the amended C2: adding a symlink whose target cannot be
read fails with an I/O error and leaves the empty store unchanged. -/
theorem build_error_aborts_add_witness :
    Store.add ⟨[], []⟩ (some (FsEntry.symlink "s" none)) = (⟨[], []⟩, some Err.ioError) :=
  build_error_aborts_add ⟨[], []⟩ (FsEntry.symlink "s" none) Err.ioError rfl rfl

/-- Claim C3: on an existing path whose name is not yet registered,
`add` either returns success with the built root node inserted into the
in-memory entry set, or returns an error with the entry set unchanged
(`try_from`, `build` and `links` all run before the insert, so a
failure in any of them — in particular the linking pass — leaves the
registry untouched). -/
theorem add_atomic_registry (st : Store) (fs : FsEntry)
    (h : containsName st.data fs.name = false) :
    ((Store.add st (some fs)).2 = none
      ∧ ∃ root : Node, Store.build fs = Except.ok root
          ∧ (Store.add st (some fs)).1.data = st.data ++ [root])
    ∨ ((Store.add st (some fs)).2.isSome = true
        ∧ (Store.add st (some fs)).1.data = st.data) := by
  cases hnew : Node.new fs with
  | error e =>
      right
      simp [Store.add, hnew]
  | ok probe =>
      have hpn : probe.name = fs.name := Node.new_name hnew
      have hcontains : containsName st.data probe.name = false := by rw [hpn]; exact h
      cases hbuild : Store.build fs with
      | error e =>
          right
          simp [Store.add, hnew, hcontains, hbuild]
      | ok root =>
          have hrn : root.name = fs.name := Store.build_name hbuild
          cases hlinks : Store.links st.objects root with
          | mk objs oe =>
              cases oe with
              | some e =>
                  right
                  simp [Store.add, hnew, hcontains, hbuild, hlinks]
              | none =>
                  left
                  have hcr : containsName st.data root.name = false := by rw [hrn]; exact h
                  have hins : insertNode st.data root = st.data ++ [root] := by
                    simp [insertNode, hcr]
                  refine ⟨?_, root, rfl, ?_⟩
                  · simp [Store.add, hnew, hcontains, hbuild, hlinks]
                  · simp [Store.add, hnew, hcontains, hbuild, hlinks, hins]

/-- Witness for C3: adding a one-file directory to the empty store
takes the success branch of the disjunction. -/
theorem add_atomic_registry_witness :
    ((Store.add ⟨[], []⟩ (some (FsEntry.dir "t" [FsEntry.file "a" "d1"]))).2 = none
      ∧ ∃ root : Node, Store.build (FsEntry.dir "t" [FsEntry.file "a" "d1"]) = Except.ok root
          ∧ (Store.add ⟨[], []⟩ (some (FsEntry.dir "t" [FsEntry.file "a" "d1"]))).1.data
              = [] ++ [root])
    ∨ ((Store.add ⟨[], []⟩ (some (FsEntry.dir "t" [FsEntry.file "a" "d1"]))).2.isSome = true
        ∧ (Store.add ⟨[], []⟩ (some (FsEntry.dir "t" [FsEntry.file "a" "d1"]))).1.data = []) :=
  add_atomic_registry ⟨[], []⟩ (FsEntry.dir "t" [FsEntry.file "a" "d1"]) rfl

/-- Lists: a subset relation is preserved by appending the same suffix. -/
theorem append_subset_append_left_of (S T r : List String) (hsub : S ⊆ T) :
    S ++ r ⊆ T ++ r := by
  intro z hz
  rcases List.mem_append.mp hz with h1 | h1
  · exact List.mem_append_left _ (hsub h1)
  · exact List.mem_append_right _ h1

mutual
/-- The linker only ever adds object files: the initial object list is
contained in the result, on success and on failure alike. -/
theorem links_mono (root : Node) (S : List String) : S ⊆ (Store.links S root).1 := by
  cases root with
  | file n d =>
      by_cases h : d ∈ S
      · simp [Store.links, h]
      · simp [Store.links, h]
  | symlink n t => simp [Store.links]
  | directory n cs => exact linksList_mono cs S

/-- List form of `links_mono`. -/
theorem linksList_mono (cs : List Node) (S : List String) : S ⊆ (linksList S cs).1 := by
  cases cs with
  | nil => simp [linksList]
  | cons c cs' =>
      cases h : Store.links S c with
      | mk S1 oe =>
          have h1 : S ⊆ S1 := by
            have := links_mono c S
            rw [h] at this
            exact this
          cases oe with
          | none =>
              have h2 := linksList_mono cs' S1
              intro z hz
              have heq : (linksList S (c :: cs')) = linksList S1 cs' := by
                simp [linksList, h]
              rw [heq]
              exact h2 (h1 hz)
          | some e =>
              intro z hz
              have heq : (linksList S (c :: cs')) = (S1, some e) := by
                simp [linksList, h]
              rw [heq]
              exact h1 hz
end

mutual
/-- On success, `links` appends exactly the digests of the tree's file
nodes, in traversal order. -/
theorem links_ok_result (root : Node) (S : List String)
    (h : (Store.links S root).2 = none) : (Store.links S root).1 = S ++ Node.refs root := by
  cases root with
  | file n d =>
      by_cases hc : d ∈ S
      · simp [Store.links, hc] at h
      · simp [Store.links, hc, Node.refs]
  | symlink n t => simp [Store.links, Node.refs]
  | directory n cs =>
      have := linksList_ok_result cs S
      simpa [Store.links, Node.refs] using this (by simpa [Store.links] using h)

/-- List form of `links_ok_result`. -/
theorem linksList_ok_result (cs : List Node) (S : List String)
    (h : (linksList S cs).2 = none) : (linksList S cs).1 = S ++ refsList cs := by
  cases cs with
  | nil => simp [linksList, refsList]
  | cons c cs' =>
      cases hl : Store.links S c with
      | mk S1 oe =>
          cases oe with
          | none =>
              have heq : linksList S (c :: cs') = linksList S1 cs' := by
                simp [linksList, hl]
              rw [heq] at h ⊢
              have h1 : S1 = S ++ Node.refs c := by
                have := links_ok_result c S
                rw [hl] at this
                exact this rfl
              rw [linksList_ok_result cs' S1 h, h1, refsList, List.append_assoc]
          | some e =>
              have heq : linksList S (c :: cs') = (S1, some e) := by
                simp [linksList, hl]
              rw [heq] at h
              simp at h
end

mutual
/-- Failure of the linker is monotone in the initial object store: if
linking a tree fails starting from `S`, it also fails starting from any
superset `T` (a hard link that hit EEXIST still hits it). -/
theorem links_fail_mono (root : Node) (S T : List String) (hsub : S ⊆ T)
    (h : (Store.links S root).2.isSome = true) : (Store.links T root).2.isSome = true := by
  cases root with
  | file n d =>
      by_cases hc : d ∈ S
      · simp [Store.links, hsub hc]
      · simp [Store.links, hc] at h
  | symlink n t => simp [Store.links] at h
  | directory n cs =>
      have := linksList_fail_mono cs S T hsub (by simpa [Store.links] using h)
      simpa [Store.links] using this

/-- List form of `links_fail_mono`. -/
theorem linksList_fail_mono (cs : List Node) (S T : List String) (hsub : S ⊆ T)
    (h : (linksList S cs).2.isSome = true) : (linksList T cs).2.isSome = true := by
  cases cs with
  | nil => simp [linksList] at h
  | cons c cs' =>
      cases hlT : Store.links T c with
      | mk T1 oeT =>
          cases oeT with
          | some e => simp [linksList, hlT]
          | none =>
              cases hlS : Store.links S c with
              | mk S1 oeS =>
                  cases oeS with
                  | some e =>
                      have hfail := links_fail_mono c S T hsub (by rw [hlS]; rfl)
                      rw [hlT] at hfail
                      simp at hfail
                  | none =>
                      have hS1 : S1 = S ++ Node.refs c := by
                        have := links_ok_result c S
                        rw [hlS] at this
                        exact this rfl
                      have hT1 : T1 = T ++ Node.refs c := by
                        have := links_ok_result c T
                        rw [hlT] at this
                        exact this rfl
                      have hsub1 : S1 ⊆ T1 := by
                        rw [hS1, hT1]
                        exact append_subset_append_left_of S T (Node.refs c) hsub
                      have heqS : linksList S (c :: cs') = linksList S1 cs' := by
                        simp [linksList, hlS]
                      have heqT : linksList T (c :: cs') = linksList T1 cs' := by
                        simp [linksList, hlT]
                      rw [heqS] at h
                      rw [heqT]
                      exact linksList_fail_mono cs' S1 T1 hsub1 h
end

/-- Claim C5: calling `add` twice in succession on an unchanged
existing tree leaves the registry entry set (hence its count) exactly
as after the first call; and when the first call succeeded, the second
call is a full no-op returning success, because an entry with the
root's name is already present and the contains check short-circuits
before building or linking.  (When the first call failed, the second
fails as well — the partially linked objects make the first hard link
hit EEXIST — so the registry is still not mutated.) -/
theorem add_idempotent (st st1 : Store) (fs : FsEntry) (r1 : Option Err)
    (h : Store.add st (some fs) = (st1, r1)) :
    (Store.add st1 (some fs)).1.data = st1.data
    ∧ (r1 = none → Store.add st1 (some fs) = (st1, none)) := by
  cases hnew : Node.new fs with
  | error e =>
      have hpair : (st, some e) = (st1, r1) := by
        rw [← h]; simp [Store.add, hnew]
      have hst : st1 = st := (congrArg Prod.fst hpair).symm
      have hr : r1 = some e := (congrArg Prod.snd hpair).symm
      subst hst
      constructor
      · simp [Store.add, hnew]
      · intro hnone
        rw [hr] at hnone
        simp at hnone
  | ok probe =>
      have hpn : probe.name = fs.name := Node.new_name hnew
      cases hc : containsName st.data probe.name with
      | true =>
          have hpair : (st, (none : Option Err)) = (st1, r1) := by
            rw [← h]; simp [Store.add, hnew, hc]
          have hst : st1 = st := (congrArg Prod.fst hpair).symm
          subst hst
          constructor
          · simp [Store.add, hnew, hc]
          · intro _
            simp [Store.add, hnew, hc]
      | false =>
          cases hbuild : Store.build fs with
          | error e =>
              have hpair : (st, some e) = (st1, r1) := by
                rw [← h]; simp [Store.add, hnew, hc, hbuild]
              have hst : st1 = st := (congrArg Prod.fst hpair).symm
              have hr : r1 = some e := (congrArg Prod.snd hpair).symm
              subst hst
              constructor
              · simp [Store.add, hnew, hc, hbuild]
              · intro hnone
                rw [hr] at hnone
                simp at hnone
          | ok root =>
              have hrn : root.name = fs.name := Store.build_name hbuild
              cases hlinks : Store.links st.objects root with
              | mk objs oe =>
                  cases oe with
                  | none =>
                      have hpair : (Store.mk (insertNode st.data root) objs,
                          (none : Option Err)) = (st1, r1) := by
                        rw [← h]; simp [Store.add, hnew, hc, hbuild, hlinks]
                      have hst : st1 = ⟨insertNode st.data root, objs⟩ :=
                        (congrArg Prod.fst hpair).symm
                      have hcr : containsName st.data root.name = false := by
                        rw [hrn, ← hpn]; exact hc
                      have hins : insertNode st.data root = st.data ++ [root] := by
                        simp [insertNode, hcr]
                      have hc2 : containsName st1.data probe.name = true := by
                        rw [hst]
                        show containsName (insertNode st.data root) probe.name = true
                        rw [hins, containsName_append_one, hc]
                        have hb : (root.name == probe.name) = true := by
                          rw [hrn, ← hpn]; simp
                        rw [hb]
                        rfl
                      have hsecond : Store.add st1 (some fs) = (st1, none) := by
                        simp [Store.add, hnew, hc2]
                      exact ⟨by rw [hsecond], fun _ => hsecond⟩
                  | some e =>
                      have hpair : (Store.mk st.data objs, some e) = (st1, r1) := by
                        rw [← h]; simp [Store.add, hnew, hc, hbuild, hlinks]
                      have hst : st1 = ⟨st.data, objs⟩ := (congrArg Prod.fst hpair).symm
                      have hr : r1 = some e := (congrArg Prod.snd hpair).symm
                      have hmono : st.objects ⊆ objs := by
                        have := links_mono root st.objects
                        rw [hlinks] at this
                        exact this
                      have hfail : (Store.links objs root).2.isSome = true := by
                        apply links_fail_mono root st.objects objs hmono
                        rw [hlinks]
                        rfl
                      cases hl2 : Store.links objs root with
                      | mk objs2 oe2 =>
                          cases oe2 with
                          | none =>
                              rw [hl2] at hfail
                              simp at hfail
                          | some e2 =>
                              constructor
                              · rw [hst]
                                simp [Store.add, hnew, hc, hbuild, hl2]
                              · intro hnone
                                rw [hr] at hnone
                                simp at hnone

/-- Witness for C5: re-adding the already-captured one-file directory
leaves the registry as after the first (successful) call and returns
success. -/
theorem add_idempotent_witness :
    (Store.add ⟨[Node.directory "t" [Node.file "a" "d1"]], ["d1"]⟩
        (some (FsEntry.dir "t" [FsEntry.file "a" "d1"]))).1.data
      = [Node.directory "t" [Node.file "a" "d1"]]
    ∧ ((none : Option Err) = none →
        Store.add ⟨[Node.directory "t" [Node.file "a" "d1"]], ["d1"]⟩
            (some (FsEntry.dir "t" [FsEntry.file "a" "d1"]))
          = (⟨[Node.directory "t" [Node.file "a" "d1"]], ["d1"]⟩, none)) :=
  add_idempotent ⟨[], []⟩ ⟨[Node.directory "t" [Node.file "a" "d1"]], ["d1"]⟩
    (FsEntry.dir "t" [FsEntry.file "a" "d1"]) none (by rfl)

/-- Claim C4: merging a persisted registry (with set-unique names) into
the in-memory set keeps every in-memory entry unchanged and appends
exactly the persisted entries whose names are not already present;
persisted entries that collide on name are dropped. -/
theorem load_merge_keep_existing (st : Store) (tmp : List Node)
    (h : tmp.Pairwise (fun a b => a.name ≠ b.name)) :
    (Store.load st (RegFile.content tmp)).2 = none
    ∧ (Store.load st (RegFile.content tmp)).1.data
        = st.data ++ tmp.filter (fun n => !containsName st.data n.name)
    ∧ (Store.load st (RegFile.content tmp)).1.objects = st.objects := by
  refine ⟨rfl, ?_, rfl⟩
  show extendNodes st.data tmp = _
  exact extendNodes_eq_append_filter tmp st.data h

/-- Witness for C4: loading a persisted set whose first entry collides
on name "a" with the in-memory entry keeps the in-memory one and adds
only the fresh entry named "b". -/
theorem load_merge_keep_existing_witness :
    (Store.load ⟨[Node.file "a" "d1"], []⟩
        (RegFile.content [Node.symlink "a" "t", Node.file "b" "d2"])).2 = none
    ∧ (Store.load ⟨[Node.file "a" "d1"], []⟩
        (RegFile.content [Node.symlink "a" "t", Node.file "b" "d2"])).1.data
        = [Node.file "a" "d1"]
            ++ [Node.symlink "a" "t", Node.file "b" "d2"].filter
                (fun n => !containsName [Node.file "a" "d1"] n.name)
    ∧ (Store.load ⟨[Node.file "a" "d1"], []⟩
        (RegFile.content [Node.symlink "a" "t", Node.file "b" "d2"])).1.objects = [] :=
  load_merge_keep_existing ⟨[Node.file "a" "d1"], []⟩
    [Node.symlink "a" "t", Node.file "b" "d2"]
    (by simp [List.pairwise_cons, Node.name])

/-- Claim C6: `get(name, dst)` returns an error exactly when the
destination does not exist, or is a regular file, or the name is absent
from the registry, or an underlying file-system operation during
recovery fails; in the first three cases the destination contents are
untouched (the checks run before `recover`). -/
theorem get_error_conditions (st : Store) (nm : String) (dstExists dstIsFile : Bool)
    (dst : List (List String)) :
    ((Store.get st nm dstExists dstIsFile dst).2.isSome = true
      ↔ (dstExists = false ∨ dstIsFile = true ∨ findByName st.data nm = none
          ∨ ∃ root : Node, findByName st.data nm = some root
              ∧ (Store.recover st.objects root [root.name] dst).2.isSome = true))
    ∧ ((dstExists = false ∨ dstIsFile = true ∨ findByName st.data nm = none)
        → (Store.get st nm dstExists dstIsFile dst).1 = dst) := by
  cases dstExists with
  | false =>
      exact ⟨by simp [Store.get], fun _ => by simp [Store.get]⟩
  | true =>
      cases dstIsFile with
      | true =>
          exact ⟨by simp [Store.get], fun _ => by simp [Store.get]⟩
      | false =>
          cases hf : findByName st.data nm with
          | none =>
              exact ⟨by simp [Store.get, hf], fun _ => by simp [Store.get, hf]⟩
          | some root =>
              constructor
              · simp [Store.get, hf]
              · intro h
                rcases h with h | h | h <;> simp at h

/-- Witness for C6 at a concrete input: on an empty registry with a
missing destination, `get` errors and the destination is untouched. -/
theorem get_error_conditions_witness :
    ((Store.get ⟨[], []⟩ "x" false false []).2.isSome = true
      ↔ (false = false ∨ false = true ∨ findByName [] "x" = none
          ∨ ∃ root : Node, findByName [] "x" = some root
              ∧ (Store.recover [] root [root.name] []).2.isSome = true))
    ∧ ((false = false ∨ false = true ∨ findByName [] "x" = none)
        → (Store.get ⟨[], []⟩ "x" false false []).1 = []) :=
  get_error_conditions ⟨[], []⟩ "x" false false []

/-- Unfolding lemma for `Store.clear`: the resulting object list and
error are the two components of the sweep loop run on the unreferenced
names. -/
theorem clear_eq (st : Store) (ok : String → Bool) :
    Store.clear st ok
      = ({ st with objects :=
            (removeLoop st.objects
              (st.objects.filter (fun n => !(refsAll st.data).contains n)) ok).1 },
         (removeLoop st.objects
            (st.objects.filter (fun n => !(refsAll st.data).contains n)) ok).2) := by
  show (match removeLoop st.objects
          (st.objects.filter (fun n => !(refsAll st.data).contains n)) ok with
        | (objs, e) => ({ st with objects := objs }, e)) = _
  cases hrl : removeLoop st.objects
      (st.objects.filter (fun n => !(refsAll st.data).contains n)) ok with
  | mk objs e => rfl

/-- Claim C1: mark-and-sweep correctness of `clear()` — for every
registry state and (flat) object-store contents, when every
unreferenced object can be removed, `clear` succeeds and the surviving
object files are exactly those whose names are digests reachable from
the registry roots by the depth-first traversal; every reachable object
survives and every unreachable one is deleted. -/
theorem clear_mark_and_sweep (st : Store) (ok : String → Bool)
    (hnd : st.objects.Nodup)
    (hok : ∀ x ∈ st.objects, (refsAll st.data).contains x = false → ok x = true) :
    Store.clear st ok
      = ({ st with objects := st.objects.filter (fun n => (refsAll st.data).contains n) },
         none) := by
  have hres_ok : ∀ x ∈ st.objects.filter (fun n => !(refsAll st.data).contains n),
      ok x = true := by
    intro x hx
    rcases List.mem_filter.mp hx with ⟨hxo, hxf⟩
    exact hok x hxo (by simpa using hxf)
  have hloop := removeLoop_all_ok ok
    (st.objects.filter (fun n => !(refsAll st.data).contains n)) st.objects hnd hres_ok
  rw [clear_eq, hloop]
  have hfe : st.objects.filter
        (fun y => !(st.objects.filter (fun n => !(refsAll st.data).contains n)).contains y)
      = st.objects.filter (fun n => (refsAll st.data).contains n) := by
    apply List.filter_congr
    intro y hy
    by_cases hc : y ∈ refsAll st.data
    · have h1 : (refsAll st.data).contains y = true := by
        rw [contains_decide]; simpa using hc
      have hyres : y ∉ st.objects.filter (fun n => !(refsAll st.data).contains n) := by
        intro hmem
        have h2 := (List.mem_filter.mp hmem).2
        rw [h1] at h2
        simp at h2
      calc (!(st.objects.filter (fun n => !(refsAll st.data).contains n)).contains y)
          = !decide (y ∈ st.objects.filter (fun n => !(refsAll st.data).contains n)) := by
            rw [contains_decide]
        _ = true := by rw [decide_eq_false hyres]; rfl
        _ = (refsAll st.data).contains y := h1.symm
    · have h1 : (refsAll st.data).contains y = false := by
        rw [contains_decide]; simpa using hc
      have hyres : y ∈ st.objects.filter (fun n => !(refsAll st.data).contains n) :=
        List.mem_filter.mpr ⟨hy, by rw [h1]; rfl⟩
      calc (!(st.objects.filter (fun n => !(refsAll st.data).contains n)).contains y)
          = !decide (y ∈ st.objects.filter (fun n => !(refsAll st.data).contains n)) := by
            rw [contains_decide]
        _ = false := by rw [decide_eq_true hyres]; rfl
        _ = (refsAll st.data).contains y := h1.symm
  rw [hfe]

/-- Witness for C1, the spec's own scenario: registry referencing
digests d1 and d2, object store holding d1, d2 and d3 — `clear` removes
exactly d3 and keeps d1, d2. -/
theorem clear_mark_and_sweep_witness :
    Store.clear ⟨[Node.directory "r" [Node.file "f" "d1", Node.file "g" "d2"]],
        ["d1", "d2", "d3"]⟩ (fun _ => true)
      = (⟨[Node.directory "r" [Node.file "f" "d1", Node.file "g" "d2"]],
          ["d1", "d2"]⟩, none) := by
  have h := clear_mark_and_sweep
    ⟨[Node.directory "r" [Node.file "f" "d1", Node.file "g" "d2"]], ["d1", "d2", "d3"]⟩
    (fun _ => true) (by decide) (fun x _ _ => rfl)
  exact h.trans (by rfl)

/-- Counterexample to C9 as stated: with no registry entries, objects
"a" and "b" both unreferenced, and the deletion of "a" failing, `clear`
stops at the first failure — "b" is removable and unreferenced yet is
NOT processed (it is still present afterwards), and the error is
returned: the sweep IS aborted by a single deletion failure
(`fs::remove_file(path)?` propagates with `?`). -/
theorem clear_sweep_abort_counterexample :
    (Store.clear ⟨[], ["a", "b"]⟩ (fun x => x == "b")).2 = some Err.ioError
    ∧ "b" ∈ (Store.clear ⟨[], ["a", "b"]⟩ (fun x => x == "b")).1.objects
    ∧ (refsAll ([] : List Node)).contains "b" = false
    ∧ (fun x => x == "b") "b" = true := by
  refine ⟨rfl, ?_, rfl, rfl⟩
  show "b" ∈ (["a", "b"] : List String)
  simp

/-- Claim C9 (amended): an individual deletion failure during the sweep
aborts `clear` — the error is returned immediately, and every
unreferenced object at or after the failing one in iteration order is
left in the object store (objects deleted before the failure stay
deleted). -/
theorem clear_sweep_aborts_on_failure (st : Store) (ok : String → Bool)
    (u1 u2 : List String) (x : String)
    (hnd : st.objects.Nodup)
    (hres : st.objects.filter (fun n => !(refsAll st.data).contains n) = u1 ++ x :: u2)
    (hu1 : ∀ y ∈ u1, ok y = true) (hx : ok x = false) :
    (Store.clear st ok).2 = some Err.ioError
    ∧ ∀ z ∈ x :: u2, z ∈ (Store.clear st ok).1.objects := by
  have habort := removeLoop_abort ok x u2 hx u1 st.objects hu1
  have hndres : (u1 ++ x :: u2).Nodup := by
    rw [← hres]; exact hnd.filter _
  have hdisj : List.Disjoint u1 (x :: u2) := (List.nodup_append.mp hndres).2.2
  rw [clear_eq, hres]
  refine ⟨habort.1, ?_⟩
  intro z hz
  have hzres : z ∈ u1 ++ x :: u2 := List.mem_append_right u1 hz
  have hzobj : z ∈ st.objects := by
    rw [← hres] at hzres
    exact (List.mem_filter.mp hzres).1
  have hznotu1 : z ∉ u1 := fun hzu1 => hdisj hzu1 hz
  exact habort.2 z hzobj hznotu1

/-- Witness for the amended C9: concrete sweep over objects "a" and
"c", deletion of "a" failing — `clear` errors and both survive. -/
theorem clear_sweep_aborts_on_failure_witness :
    (Store.clear ⟨[], ["a", "c"]⟩ (fun x => x == "c")).2 = some Err.ioError
    ∧ ∀ z ∈ ("a" :: ["c"] : List String),
        z ∈ (Store.clear ⟨[], ["a", "c"]⟩ (fun x => x == "c")).1.objects :=
  clear_sweep_aborts_on_failure ⟨[], ["a", "c"]⟩ (fun x => x == "c") [] ["c"] "a"
    (by decide) (by rfl) (fun y hy => absurd hy (List.not_mem_nil y)) rfl
